import Mathlib

set_option maxRecDepth 4000

/-!
A shallow embedding of the python-prep repository notebooks: the parquet
lecture notebook (study dataset, partitioned write, aggregate and filtered
read) and the practice-problems notebook (word-count dictionary loop,
position loop over steps, multiples lists, kernel namespace with deletion).
-/

/-- A row of the study dataset: two categorical columns (sex, treatment)
and two integer columns (age, recovery), the four columns shown by the
lecture notebook. -/
structure StudyRow where
  sex : String
  treatment : String
  age : Int
  recovery : Int
deriving DecidableEq

/-- Integer ranges used to build the modelled dataset. -/
def intRange (start len : Nat) : List Int :=
  (List.range len).map (fun k => (start + k : Int))

/-- Rows sharing one sex and one treatment, with the given ages. -/
def mkRows (s t : String) (ages : List Int) : List StudyRow :=
  ages.map (fun a => { sex := s, treatment := t, age := a, recovery := a % 15 })

/-- Modelled from the spec: the sample input study_results.csv, which is not
among the repository sources (the lecture notebook only reads it). The spec
and the recorded notebook outputs fix its shape: 120 rows over the four
columns sex, treatment, age, recovery; sex takes the values F and M,
treatment the values A, B and C; age and recovery are integers; exactly 40
rows have sex F together with age below 50; all six sex-treatment
combinations occur. -/
def study_results : List StudyRow :=
  mkRows "F" "A" (intRange 19 20) ++ mkRows "F" "B" (intRange 20 20) ++
    mkRows "F" "C" (intRange 50 20) ++ mkRows "M" "A" (intRange 22 20) ++
      mkRows "M" "B" (intRange 30 20) ++ mkRows "M" "C" (intRange 45 20)

/-- C7: the sample input is a table of exactly the four StudyRow columns,
two categorical (sex with values F and M, treatment with values A, B, C) and
two integer ones, holding 120 rows. -/
theorem c7_sample_input_shape :
    study_results.length = 120 ∧
    study_results.all (fun r => r.sex == "F" || r.sex == "M") = true ∧
    study_results.all
      (fun r => r.treatment == "A" || r.treatment == "B" || r.treatment == "C") = true ∧
    (study_results.map (fun r => r.sex)).dedup = ["F", "M"] ∧
    (study_results.map (fun r => r.treatment)).dedup = ["A", "B", "C"] := by
  decide

/-- The value of a filter triple: a string for the categorical columns, an
integer for the numeric ones. -/
inductive PqValue
  | str (s : String)
  | int (n : Int)
deriving DecidableEq

/-- A filter triple as passed to ParquetDataset: column name, comparison
operator, comparison value. -/
abbrev PqFilter := String × String × PqValue

/-- String-valued column access by column name. -/
def rowStr (r : StudyRow) (c : String) : Option String :=
  if c == "sex" then some r.sex
  else if c == "treatment" then some r.treatment
  else none

/-- Integer-valued column access by column name. -/
def rowInt (r : StudyRow) (c : String) : Option Int :=
  if c == "age" then some r.age
  else if c == "recovery" then some r.recovery
  else none

/-- Modelled from the spec: evaluation of one filter triple on one row
(the pyarrow library itself is not part of the repository sources); key
equality and inequality on the categorical columns, the numeric comparisons
on the integer columns. -/
def matchesFilter (r : StudyRow) (f : PqFilter) : Bool :=
  match f with
  | (col, op, PqValue.str v) =>
    match rowStr r col with
    | some x =>
      if op == "==" then x == v
      else if op == "!=" then !(x == v)
      else false
    | none => false
  | (col, op, PqValue.int v) =>
    match rowInt r col with
    | some x =>
      if op == "==" then x == v
      else if op == "!=" then !(x == v)
      else if op == "<" then decide (x < v)
      else if op == "<=" then decide (x ≤ v)
      else if op == ">" then decide (v < x)
      else if op == ">=" then decide (v ≤ x)
      else false
    | none => false

/-- Modelled from the spec: the filters list is applied in the order of the
list, each triple keeping the rows it accepts (subsetting is performed in
order of the list, per the notebook comment). -/
def applyFilters (fs : List PqFilter) (rows : List StudyRow) : List StudyRow :=
  fs.foldl (fun acc f => acc.filter (fun r => matchesFilter r f)) rows

/-- The partition key of a row: the values of the two partition columns. -/
def rowKey (r : StudyRow) : String × String := (r.sex, r.treatment)

/-- A leaf file of the partitioned directory: its path, as a list of
key/value path segments, and the rows it stores. -/
structure LeafFile where
  path : List (String × String)
  rows : List StudyRow
deriving DecidableEq

/-- Modelled from the spec: to_parquet with partition_cols sex and treatment
writes one leaf file per observed partition-key combination, its path made
of one key=value segment per partition column and its rows the rows of the
dataframe carrying exactly that key. -/
def to_parquet (df : List StudyRow) : List LeafFile :=
  ((df.map rowKey).dedup).map (fun k =>
    { path := [("sex", k.1), ("treatment", k.2)],
      rows := df.filter (fun r => decide (rowKey r = k)) })

/-- Modelled from the spec: reading the partitioned directory in aggregate
concatenates the rows of its leaf files. -/
def read_parquet (leaves : List LeafFile) : List StudyRow :=
  leaves.flatMap (fun lf => lf.rows)

/-- Modelled from the spec: a ParquetDataset read with a filters list
materializes the aggregate rows that pass all filters. -/
def datasetRead (leaves : List LeafFile) (fs : List PqFilter) : List StudyRow :=
  applyFilters fs (read_parquet leaves)

/-- The partitioned directory written from the study dataset. -/
def study_directory : List LeafFile := to_parquet study_results

/-- The filters list of the lecture notebook. -/
def study_filters : List PqFilter :=
  [("sex", "==", PqValue.str "F"), ("age", "<", PqValue.int 50)]

/-- The rows materialized by the filtered read of the lecture notebook. -/
def study_directory_F : List StudyRow := datasetRead study_directory study_filters

/-- Applying the filters one after the other in list order equals one filter
by the conjunction of all triples. -/
theorem applyFilters_eq_filter_all (fs : List PqFilter) (rows : List StudyRow) :
    applyFilters fs rows = rows.filter (fun r => fs.all (fun f => matchesFilter r f)) := by
  induction fs generalizing rows with
  | nil => simp [applyFilters]
  | cons f fs ih =>
    show applyFilters fs (rows.filter (fun r => matchesFilter r f)) = _
    rw [ih (rows.filter (fun r => matchesFilter r f)), List.filter_filter]
    exact List.filter_congr (fun x _ => by simp [List.all_cons, Bool.and_comm])

/-- C1: the filtered read of the partitioned directory returns exactly the
rows of the original 120-row dataset with sex F and age below 50; the
ordered filters list acts as the conjunction of its triples; the result has
40 rows, every row has sex F, no row has sex M, and every age is below 50. -/
theorem c1_filtered_read :
    (∀ (fs : List PqFilter) (rows : List StudyRow),
      applyFilters fs rows = rows.filter (fun r => fs.all (fun f => matchesFilter r f))) ∧
    study_directory_F =
      study_results.filter (fun r => r.sex == "F" && decide (r.age < 50)) ∧
    study_directory_F.length = 40 ∧
    study_directory_F.all (fun r => r.sex == "F") = true ∧
    study_directory_F.all (fun r => !(r.sex == "M")) = true ∧
    study_directory_F.all (fun r => decide (r.age < 50)) = true := by
  refine ⟨applyFilters_eq_filter_all, ?_, ?_, ?_, ?_, ?_⟩ <;> decide

/-- Reading back the written directory concatenates, combination by
combination, the rows of the dataframe carrying that combination. -/
theorem read_to_parquet (df : List StudyRow) :
    read_parquet (to_parquet df) =
      ((df.map rowKey).dedup).flatMap
        (fun k => df.filter (fun r => decide (rowKey r = k))) := by
  rw [read_parquet, to_parquet, List.flatMap_map]

/-- Concatenating, over a duplicate-free list of keys covering every row,
the rows with each key is a permutation of the original list. -/
theorem groupKeys_perm :
    ∀ (cs : List (String × String)) (df : List StudyRow), cs.Nodup →
      (∀ r ∈ df, rowKey r ∈ cs) →
      (cs.flatMap (fun k => df.filter (fun r => decide (rowKey r = k)))).Perm df := by
  intro cs
  induction cs with
  | nil =>
    intro df _ hcov
    have hdf : df = [] := by
      cases df with
      | nil => rfl
      | cons r t => exact absurd (hcov r (by simp)) (by simp)
    simp [hdf]
  | cons c cs ih =>
    intro df hnd hcov
    have hnotmem : c ∉ cs := (List.nodup_cons.mp hnd).1
    have hnd' : cs.Nodup := (List.nodup_cons.mp hnd).2
    have hinner : ∀ k ∈ cs,
        df.filter (fun r => decide (rowKey r = k)) =
          (df.filter (fun r => !decide (rowKey r = c))).filter
            (fun r => decide (rowKey r = k)) := by
      intro k hk
      rw [List.filter_filter]
      refine List.filter_congr (fun x _ => ?_)
      by_cases h : rowKey x = k
      · have hkc : k ≠ c := fun hc => hnotmem (hc ▸ hk)
        simp [h, hkc]
      · simp [h]
    have hcov' : ∀ r ∈ df.filter (fun r => !decide (rowKey r = c)), rowKey r ∈ cs := by
      intro r hr
      have hm := List.mem_filter.mp hr
      have hrc : rowKey r ≠ c := by simpa using hm.2
      rcases List.mem_cons.mp (hcov r hm.1) with h | h
      · exact absurd h hrc
      · exact h
    have h1 := ih (df.filter (fun r => !decide (rowKey r = c))) hnd' hcov'
    rw [List.flatMap_cons, List.flatMap_congr hinner]
    exact (List.Perm.append_left _ h1).trans
      (List.filter_append_perm (fun r => decide (rowKey r = c)) df)

/-- C2: writing a dataframe to the partitioned directory and reading the
directory back in aggregate permutes the rows but loses, duplicates and
alters none; in particular the 120-row study dataset reads back as a
permutation of itself with 120 rows. -/
theorem c2_partition_roundtrip :
    (∀ df : List StudyRow, (read_parquet (to_parquet df)).Perm df) ∧
    (read_parquet (to_parquet study_results)).Perm study_results ∧
    (read_parquet (to_parquet study_results)).length = 120 ∧
    study_results.length = 120 := by
  have hgen : ∀ df : List StudyRow, (read_parquet (to_parquet df)).Perm df := by
    intro df
    rw [read_to_parquet]
    exact groupKeys_perm _ df (List.nodup_dedup _)
      (fun r hr => List.mem_dedup.mpr (List.mem_map_of_mem rowKey hr))
  refine ⟨hgen, hgen study_results, ?_, by decide⟩
  rw [(hgen study_results).length_eq]
  decide

/-- C3: in the directory written from any dataframe, every leaf file has a
path of one key=value segment per partition column, and every row stored in
a leaf file carries exactly the key values encoded on its path. -/
theorem c3_partition_layout :
    ∀ (df : List StudyRow), ∀ lf ∈ to_parquet df, ∀ r ∈ lf.rows,
      lf.path = [("sex", r.sex), ("treatment", r.treatment)] := by
  intro df lf hlf r hr
  obtain ⟨k, _, rfl⟩ := List.mem_map.mp hlf
  have hk : rowKey r = k := of_decide_eq_true (List.mem_filter.mp hr).2
  simp [← hk, rowKey]

/-- A two-row dataframe used to instantiate the layout invariant. -/
def demo_rows : List StudyRow :=
  [{ sex := "F", treatment := "A", age := 30, recovery := 3 },
   { sex := "M", treatment := "B", age := 60, recovery := 5 }]

/-- The leaf file holding the first demo row. -/
def demo_leaf : LeafFile :=
  { path := [("sex", "F"), ("treatment", "A")],
    rows := [{ sex := "F", treatment := "A", age := 30, recovery := 3 }] }

/-- The layout invariant at a concrete directory, leaf file and row. -/
theorem c3_partition_layout_witness :
    demo_leaf ∈ to_parquet demo_rows ∧
    ({ sex := "F", treatment := "A", age := 30, recovery := 3 } : StudyRow) ∈
      demo_leaf.rows ∧
    demo_leaf.path = [("sex", "F"), ("treatment", "A")] :=
  ⟨by decide, by decide,
    c3_partition_layout demo_rows demo_leaf (by decide)
      { sex := "F", treatment := "A", age := 30, recovery := 3 } (by decide)⟩

/-- The observed values of each partition-key column, per key column in
key order, modelling partitioning.dictionaries of the read directory. -/
def partitioning_dictionaries (df : List StudyRow) : List String × List String :=
  ((df.map (fun r => r.sex)).dedup, (df.map (fun r => r.treatment)).dedup)

/-- C4: partitioning the study dataset on sex and treatment yields exactly
six leaf files, one per combination of observed values (two sexes times
three treatments), with pairwise distinct paths, and the partitioning
dictionaries list exactly the observed values of each key column. -/
theorem c4_partition_combinations :
    (to_parquet study_results).length = 6 ∧
    (to_parquet study_results).map (fun lf => lf.path) =
      [[("sex", "F"), ("treatment", "A")], [("sex", "F"), ("treatment", "B")],
       [("sex", "F"), ("treatment", "C")], [("sex", "M"), ("treatment", "A")],
       [("sex", "M"), ("treatment", "B")], [("sex", "M"), ("treatment", "C")]] ∧
    ((to_parquet study_results).map (fun lf => lf.path)).Nodup ∧
    partitioning_dictionaries study_results = (["F", "M"], ["A", "B", "C"]) := by
  refine ⟨?_, ?_, ?_, ?_⟩ <;> decide

/-- The sample_words list of the practice-problems notebook. -/
def sample_words : List String :=
  ["apple", "banana", "apple", "computer", "computer",
   "programming", "language", "Obama", "Bush", "Trump",
   "Eisenhower", "president", "president", "president",
   "president", "dog", "dog", "cat", "duck", "duck", "goose",
   "baseball", "basketball", "football", "hockey", "soccer",
   "sports", "lebron", "james", "darius", "garland"]

/-- Insertion-ordered association-list update, modelling assignment to a
dictionary key: replace the value of an existing key in place, append a new
key at the end. -/
def assocSet {β : Type} (d : List (String × β)) (k : String) (v : β) :
    List (String × β) :=
  match d with
  | [] => [(k, v)]
  | (k1, v1) :: t => if k1 == k then (k, v) :: t else (k1, v1) :: assocSet t k v

/-- One iteration of the dictionary-building loop: increment the entry of a
word already present, otherwise set it to one. -/
def wordCountStep (d : List (String × Nat)) (w : String) : List (String × Nat) :=
  if (List.lookup w d).isSome then assocSet d w ((List.lookup w d).getD 0 + 1)
  else assocSet d w 1

/-- The dictionary built by the loop over a word list, starting empty. -/
def wordCount (ws : List String) : List (String × Nat) :=
  ws.foldl wordCountStep []

/-- Updating a key makes lookup of that key return the new value. -/
theorem lookup_assocSet_self {β : Type} (d : List (String × β)) (k : String) (v : β) :
    List.lookup k (assocSet d k v) = some v := by
  induction d with
  | nil => simp [assocSet, List.lookup]
  | cons p t ih =>
    obtain ⟨k1, v1⟩ := p
    by_cases h : k1 = k
    · simp [assocSet, h, List.lookup]
    · have hb : (k1 == k) = false := beq_eq_false_iff_ne.mpr h
      have hb2 : (k == k1) = false := beq_eq_false_iff_ne.mpr (Ne.symm h)
      simp [assocSet, hb, List.lookup, hb2, ih]

/-- Updating one key leaves lookup of any other key unchanged. -/
theorem lookup_assocSet_ne {β : Type} (d : List (String × β)) {k w : String}
    (v : β) (h : w ≠ k) : List.lookup w (assocSet d k v) = List.lookup w d := by
  induction d with
  | nil => simp [assocSet, List.lookup, beq_eq_false_iff_ne.mpr h]
  | cons p t ih =>
    obtain ⟨k1, v1⟩ := p
    by_cases h1 : k1 = k
    · subst h1
      simp [assocSet, List.lookup, beq_eq_false_iff_ne.mpr h]
    · simp [assocSet, beq_eq_false_iff_ne.mpr h1, List.lookup, ih]

/-- Lookup succeeds exactly on the keys of an association list. -/
theorem lookup_isSome_iff {β : Type} (d : List (String × β)) (w : String) :
    (List.lookup w d).isSome = true ↔ w ∈ d.map Prod.fst := by
  induction d with
  | nil => simp [List.lookup]
  | cons p t ih =>
    obtain ⟨k1, v1⟩ := p
    by_cases h : w = k1
    · simp [List.lookup, h]
    · simp [List.lookup, beq_eq_false_iff_ne.mpr h, ih, h]

/-- Running the loop from any dictionary adds the word counts of the list
to the stored entries and creates entries for the new words. -/
theorem lookup_foldl_wordCountStep :
    ∀ (ws : List String) (d : List (String × Nat)) (w : String),
      List.lookup w (ws.foldl wordCountStep d) =
        match List.lookup w d with
        | some n => some (n + ws.count w)
        | none => if ws.count w = 0 then none else some (ws.count w) := by
  intro ws
  induction ws with
  | nil =>
    intro d w
    cases h : List.lookup w d <;> simp [h]
  | cons a t ih =>
    intro d w
    rw [List.foldl_cons, ih (wordCountStep d a) w]
    by_cases hw : w = a
    · subst hw
      cases h : List.lookup w d with
      | some n =>
        have h1 : List.lookup w (wordCountStep d w) = some (n + 1) := by
          simp [wordCountStep, h, lookup_assocSet_self]
        simp [h1, h, List.count_cons]
        omega
      | none =>
        have h1 : List.lookup w (wordCountStep d w) = some 1 := by
          simp [wordCountStep, h, lookup_assocSet_self]
        rw [h1]
        simp [List.count_cons]
        omega
    · have hlk : List.lookup w (wordCountStep d a) = List.lookup w d := by
        rw [wordCountStep]
        split
        · exact lookup_assocSet_ne _ _ hw
        · exact lookup_assocSet_ne _ _ hw
      have hcnt : t.count w + (if (a == w) = true then 1 else 0) = t.count w := by
        simp [beq_eq_false_iff_ne.mpr (Ne.symm hw)]
      rw [hlk, List.count_cons, hcnt]

/-- Lookup in the loop result is the number of occurrences in the list. -/
theorem lookup_wordCount (ws : List String) (w : String) :
    List.lookup w (wordCount ws) =
      if ws.count w = 0 then none else some (ws.count w) := by
  rw [wordCount, lookup_foldl_wordCountStep]
  rfl

/-- The keys of the loop result are the distinct words of the list. -/
theorem mem_wordCount_keys (ws : List String) (w : String) :
    w ∈ (wordCount ws).map Prod.fst ↔ w ∈ ws := by
  rw [← lookup_isSome_iff, lookup_wordCount]
  by_cases h : ws.count w = 0
  · simp [h, List.count_eq_zero.mp h]
  · simp only [h, if_false, Option.isSome_some, true_iff]
    by_contra hmem
    exact h (List.count_eq_zero.mpr hmem)

/-- C8: the dictionary-building loop maps each distinct word of the input
list, and only those, to its number of occurrences; on sample_words the
word president maps to 4, apple and dog to 2, banana to 1. -/
theorem c8_word_count :
    (∀ (ws : List String) (w : String),
      List.lookup w (wordCount ws) =
        if ws.count w = 0 then none else some (ws.count w)) ∧
    (∀ (ws : List String) (w : String),
      w ∈ (wordCount ws).map Prod.fst ↔ w ∈ ws) ∧
    List.lookup "president" (wordCount sample_words) = some 4 ∧
    List.lookup "apple" (wordCount sample_words) = some 2 ∧
    List.lookup "dog" (wordCount sample_words) = some 2 ∧
    List.lookup "banana" (wordCount sample_words) = some 1 := by
  refine ⟨lookup_wordCount, mem_wordCount_keys, ?_, ?_, ?_, ?_⟩ <;> decide

/-- The steps list of the practice-problems notebook. -/
def steps : List Int :=
  [-1, 1, 1, -1, -1, 1, 1, 1, -1, -1, -1, -1, -1, 1,
   -1, 1, -1, 1, 1, 1, -1, -1, 1, 1, -1, -1]

/-- The position loop: print the current position, then add the step; the
first component collects the printed values, the second is the final
position. -/
def positionLoop : Int → List Int → List Int × Int
  | pos, [] => ([], pos)
  | pos, i :: t =>
    let rest := positionLoop (pos + i) t
    (pos :: rest.1, rest.2)

/-- The position loop started from zero, as in the notebook. -/
def positionRun (l : List Int) : List Int × Int := positionLoop 0 l

/-- The position loop prints the running prefix sums shifted by its starting
position and ends at the starting position plus the total sum. -/
theorem positionLoop_spec :
    ∀ (l : List Int) (pos : Int),
      positionLoop pos l =
        ((List.range l.length).map (fun k => pos + (l.take k).sum), pos + l.sum) := by
  intro l
  induction l with
  | nil => intro pos; simp [positionLoop]
  | cons i t ih =>
    intro pos
    simp only [positionLoop, ih (pos + i), List.length_cons, List.range_succ_eq_map,
      List.map_cons, List.map_map, Prod.mk.injEq]
    refine ⟨?_, by simp [List.sum_cons]; ring⟩
    congr 1
    · simp
    · refine List.map_congr_left (fun k _ => ?_)
      simp [Function.comp, List.sum_cons, List.take_succ_cons]
      ring

/-- C9: starting from zero, the k-th printed value of the position loop is
the sum of the first k steps (the zeroth printed value is zero), and the
final position is the sum of all steps; on the 26-element steps list of the
notebook the final position is minus two. -/
theorem c9_position_prefix_sums :
    (∀ l : List Int,
      positionRun l = ((List.range l.length).map (fun k => (l.take k).sum), l.sum)) ∧
    (positionRun steps).1 = (List.range 26).map (fun k => ((steps.take k).sum)) ∧
    (positionRun steps).1.length = 26 ∧
    (positionRun steps).2 = -2 ∧
    steps.length = 26 := by
  have hgen : ∀ l : List Int,
      positionRun l = ((List.range l.length).map (fun k => (l.take k).sum), l.sum) := by
    intro l
    rw [positionRun, positionLoop_spec]
    simp
  refine ⟨hgen, ?_, by decide, by decide, by decide⟩
  rw [hgen steps]
  rfl

/-- The loop of the notebook that builds the list of multiples of m by
appending m times i for i from one to n. -/
def multiples_loop_list (m n : Nat) : List Nat :=
  (List.range' 1 n).foldl (fun acc i => acc ++ [m * i]) []

/-- The comprehension of the notebook building the same list directly. -/
def multiples_comp (m n : Nat) : List Nat :=
  (List.range' 1 n).map (fun i => m * i)

/-- Folding append-of-singleton over a list appends its image under the
element function. -/
theorem foldl_append_singleton {α β : Type} (f : α → β) :
    ∀ (l : List α) (acc : List β),
      l.foldl (fun a i => a ++ [f i]) acc = acc ++ l.map f := by
  intro l
  induction l with
  | nil => intro acc; simp
  | cons i t ih => intro acc; simp [ih]

/-- C10: the append loop and the comprehension produce the same list; it has
length n and its k-th entry (zero-indexed) is m times (k plus one); the
notebook instances with multiplier three and seven and n twenty agree as
well. -/
theorem c10_multiples_equivalence :
    (∀ m n : Nat, multiples_loop_list m n = multiples_comp m n) ∧
    (∀ m n : Nat, (multiples_loop_list m n).length = n) ∧
    (∀ m n k : Nat,
      (multiples_loop_list m n)[k]? =
        if k < n then some (m * (k + 1)) else none) ∧
    multiples_loop_list 3 20 = multiples_comp 3 20 ∧
    multiples_loop_list 7 20 = multiples_comp 7 20 ∧
    (multiples_loop_list 3 20).length = 20 := by
  have heq : ∀ m n : Nat, multiples_loop_list m n = multiples_comp m n := by
    intro m n
    rw [multiples_loop_list, multiples_comp, foldl_append_singleton]
    simp
  have hlen : ∀ m n : Nat, (multiples_loop_list m n).length = n := by
    intro m n
    rw [heq, multiples_comp]
    simp
  refine ⟨heq, hlen, ?_, heq 3 20, heq 7 20, hlen 3 20⟩
  intro m n k
  rw [heq, multiples_comp, List.range'_eq_map_range, List.map_map, List.getElem?_map]
  by_cases h : k < n
  · rw [List.getElem?_range h]
    simp [h, Function.comp, Nat.add_comm]
  · rw [List.getElem?_eq_none (by simpa using Nat.le_of_not_lt h)]
    simp [h]

/-- A value in the kernel namespace: the value kinds the practice cells
bind. -/
inductive PyValue
  | strList (ws : List String)
  | natDict (d : List (String × Nat))
  | intVal (n : Int)
deriving DecidableEq

/-- The kernel namespace: name-to-value bindings in insertion order. -/
abbrev Env := List (String × PyValue)

/-- Deleting a name from the namespace, as the del statement does. -/
def envDelete (env : Env) (k : String) : Env :=
  env.filter (fun p => !(p.1 == k))

/-- The cell defining sample_words: binds the name and shows the list. -/
def sample_words_cell (env : Env) : Except String (Env × PyValue) :=
  Except.ok (assocSet env "sample_words" (PyValue.strList sample_words),
    PyValue.strList sample_words)

/-- The word-count cell: reads the name sample_words from the namespace and
builds the dictionary; when the name is absent the read fails with a
name-not-found error. -/
def my_dict_cell (env : Env) : Except String (Env × PyValue) :=
  match List.lookup "sample_words" env with
  | some (PyValue.strList ws) =>
    Except.ok (assocSet env "my_dict" (PyValue.natDict (wordCount ws)),
      PyValue.natDict (wordCount ws))
  | some _ => Except.error "TypeError"
  | none => Except.error "NameError: sample_words"

/-- Whether a cell evaluation succeeded. -/
def cellOk {α : Type} : Except String α → Bool
  | Except.ok _ => true
  | Except.error _ => false

/-- The namespace after the sample_words defining cell has run. -/
def runSampleWordsCell : Env :=
  match sample_words_cell [] with
  | Except.ok (e, _) => e
  | Except.error _ => []

/-- C5 as stated fails: the word-count cell evaluated in a fresh namespace
gives a different result from the same cell evaluated after the defining
cell has run. -/
theorem c5_counterexample :
    my_dict_cell [] ≠ my_dict_cell runSampleWordsCell := by
  intro h
  have h2 := congrArg cellOk h
  rw [show cellOk (my_dict_cell []) = false from rfl,
    show cellOk (my_dict_cell runSampleWordsCell) = true from rfl] at h2
  exact Bool.false_ne_true h2

/-- C5 amended: cells share the kernel namespace, and a cell may read names
defined by earlier cells; the word-count cell reads sample_words, so in a
fresh namespace it fails with a name-not-found error while after the
defining cell it succeeds. -/
theorem c5_amended_shared_state :
    my_dict_cell [] = Except.error "NameError: sample_words" ∧
    cellOk (my_dict_cell []) = false ∧
    cellOk (my_dict_cell runSampleWordsCell) = true ∧
    List.lookup "sample_words" runSampleWordsCell =
      some (PyValue.strList sample_words) :=
  ⟨rfl, rfl, rfl, rfl⟩

/-- The cell del a, b: requires both names bound and removes them both. -/
def del_a_b_cell (env : Env) : Except String Env :=
  match List.lookup "a" env, List.lookup "b" env with
  | some _, some _ => Except.ok (envDelete (envDelete env "a") "b")
  | _, _ => Except.error "NameError: del"

/-- A cell consisting of a bare name: returns its value, or fails with a
name-not-found error when the name is unbound. -/
def access_cell (x : String) (env : Env) : Except String PyValue :=
  match List.lookup x env with
  | some v => Except.ok v
  | none => Except.error ("NameError: " ++ x)

/-- Lookup of a deleted name fails. -/
theorem lookup_envDelete_self (env : Env) (k : String) :
    List.lookup k (envDelete env k) = none := by
  induction env with
  | nil => rfl
  | cons p t ih =>
    obtain ⟨k1, v1⟩ := p
    by_cases h : k1 = k
    · simpa [envDelete, h] using ih
    · have hb : (k1 == k) = false := beq_eq_false_iff_ne.mpr h
      have hb2 : (k == k1) = false := beq_eq_false_iff_ne.mpr (Ne.symm h)
      simpa [envDelete, hb, List.lookup, hb2] using ih

/-- Lookup of another name is unchanged by a deletion. -/
theorem lookup_envDelete_ne (env : Env) {k k1 : String} (h : k ≠ k1) :
    List.lookup k (envDelete env k1) = List.lookup k env := by
  induction env with
  | nil => rfl
  | cons p t ih =>
    obtain ⟨k2, v2⟩ := p
    by_cases h2 : k2 = k1
    · subst h2
      have hb1 : (k == k2) = false := beq_eq_false_iff_ne.mpr h
      simpa [envDelete, List.lookup, hb1] using ih
    · by_cases h3 : k = k2
      · simp [envDelete, beq_eq_false_iff_ne.mpr h2, List.lookup, h3]
      · have hb : (k == k2) = false := beq_eq_false_iff_ne.mpr h3
        simp [envDelete, beq_eq_false_iff_ne.mpr h2, List.lookup, hb] at ih ⊢
        exact ih

/-- The kind of a recorded cell output in the notebook JSON. -/
inductive OutputKind
  | stream
  | executeResult
  | errorOut (ename : String) (missing : String)
deriving DecidableEq

/-- The recorded outputs of every code cell of the repository sources, in
file, document and cell order: the parquet lecture notebook, then the two
documents of the practice-problems notebook file. Transcribed from the
notebook JSON; an error output records the exception name and the unbound
variable name it reports. -/
def recorded_cell_outputs : List (List OutputKind) :=
  [[], [.executeResult], [.executeResult], [], [], [.executeResult], [], [],
   [.executeResult], [.executeResult], [.executeResult], [], [.executeResult],
   [.executeResult],
   [], [.executeResult], [.executeResult], [.executeResult], [.executeResult],
   [.executeResult], [.stream], [.stream], [], [.executeResult], [],
   [.stream], [], [],
   [.stream], [], [.stream], [.executeResult], [.executeResult], [],
   [.stream], [.stream], [], [.errorOut "NameError" "a"],
   [.errorOut "NameError" "b"], [], [], [.stream], []]

/-- Whether a recorded output is an error output. -/
def isErrorOutput : OutputKind → Bool
  | OutputKind.errorOut _ _ => true
  | _ => false

/-- C6: after a successful del of the names a and b, accessing either name
fails with a name-not-found error; and the only error outputs recorded
anywhere in the sources are the two name-not-found errors on a and b that
follow the deletion cell. -/
theorem c6_deletion_name_error :
    (∀ (env env' : Env), del_a_b_cell env = Except.ok env' →
      access_cell "a" env' = Except.error ("NameError: " ++ "a") ∧
      access_cell "b" env' = Except.error ("NameError: " ++ "b")) ∧
    (recorded_cell_outputs.flatMap id).filter isErrorOutput =
      [OutputKind.errorOut "NameError" "a", OutputKind.errorOut "NameError" "b"] := by
  constructor
  · intro env env' hdel
    have henv' : env' = envDelete (envDelete env "a") "b" := by
      rw [del_a_b_cell] at hdel
      cases ha : List.lookup "a" env with
      | none => rw [ha] at hdel; cases hdel
      | some va =>
        cases hb : List.lookup "b" env with
        | none => rw [ha, hb] at hdel; cases hdel
        | some vb =>
          rw [ha, hb] at hdel
          exact (Except.ok.injEq _ _ ▸ hdel).symm
    subst henv'
    constructor
    · have h1 : List.lookup "a" (envDelete (envDelete env "a") "b") = none := by
        rw [lookup_envDelete_ne _ (by decide), lookup_envDelete_self]
      rw [access_cell, h1]
    · have h2 : List.lookup "b" (envDelete (envDelete env "a") "b") = none := by
        rw [lookup_envDelete_self]
      rw [access_cell, h2]
  · decide

/-- A namespace binding a and b, instantiating the deletion behavior. -/
def demo_env : Env := [("a", PyValue.intVal 1), ("b", PyValue.intVal 2)]

/-- The deletion behavior at the concrete namespace demo_env. -/
theorem c6_deletion_name_error_witness :
    del_a_b_cell demo_env = Except.ok [] ∧
    access_cell "a" [] = Except.error ("NameError: " ++ "a") ∧
    access_cell "b" [] = Except.error ("NameError: " ++ "b") :=
  ⟨rfl, (c6_deletion_name_error.1 demo_env [] rfl).1,
    (c6_deletion_name_error.1 demo_env [] rfl).2⟩


